import Mathlib

/-!
Verification of the pprl_toolkit core: a shallow embedding of the
feature generators, Bloom-filter encoder, embedder/similarity engine,
matcher and private-index assignment, with theorems settling the spec
claims. Python strings are modelled as `List Char`, floats as exact
rationals `ℚ` (library numeric routines that are genuinely inexact --
`np.sqrt`, `np.log` composed with the eigendecomposition -- enter as
explicit function parameters), and in-place mutation is modelled by
state passing. Fallible operations return `Except`.
-/

/-- Python strings are modelled as lists of characters. -/
abbrev Str := List Char

/-- The decimal digit characters, `'0'` to `'9'`. -/
def decChar (d : Nat) : Char := Char.ofNat (48 + d % 10)

/-- Fuelled core of the decimal printer (mirrors CPython `str(int)`). -/
def natToDecCore : Nat → Nat → List Char → List Char
  | 0, _, acc => acc
  | fuel + 1, n, acc =>
    if n < 10 then decChar n :: acc
    else natToDecCore fuel (n / 10) (decChar (n % 10) :: acc)

/-- Decimal representation of a natural number, as Python `str(n)`. -/
def natToDec (n : Nat) : List Char := natToDecCore (n + 1) n []

/-- UTF-8 encoding of a single character (mirrors `str.encode("UTF-8")`). -/
def charUtf8 (c : Char) : List Nat :=
  let u := c.toNat
  if u < 128 then [u]
  else if u < 2048 then [192 + u / 64, 128 + u % 64]
  else if u < 65536 then [224 + u / 4096, 128 + (u / 64) % 64, 128 + u % 64]
  else [240 + u / 262144, 128 + (u / 4096) % 64, 128 + (u / 64) % 64, 128 + u % 64]

/-- UTF-8 encoding of a string. -/
def strUtf8 (s : Str) : List Nat := s.flatMap charUtf8

/-- `n` bytes of `x` in big-endian order. -/
def toBytesBE : Nat → Nat → List Nat
  | 0, _ => []
  | n + 1, x => toBytesBE n (x / 256) ++ [x % 256]

/-- Little-endian integer from a byte list (`int.from_bytes(b, "little")`). -/
def intFromBytesLE (bs : List Nat) : Nat := bs.foldr (fun b acc => b + 256 * acc) 0

/-- 32-bit left rotation.  The two summands occupy disjoint bit ranges,
so addition agrees with bitwise or. -/
def rotl32 (n x : Nat) : Nat := ((x <<< n) % 4294967296) + (x >>> (32 - n))

/-- SHA-1 message padding: a `0x80` byte, zeros to 56 mod 64, then the
bit length as 8 big-endian bytes. -/
def sha1Pad (msg : List Nat) : List Nat :=
  let k := (120 - ((msg.length + 1) % 64)) % 64
  msg ++ 128 :: List.replicate k 0 ++ toBytesBE 8 (8 * msg.length)

/-- Split a byte list into 64-byte chunks (fuelled, structurally total). -/
def chunksAux : Nat → List Nat → List (List Nat)
  | 0, _ => []
  | _, [] => []
  | fuel + 1, l => l.take 64 :: chunksAux fuel (l.drop 64)

def chunks64 (l : List Nat) : List (List Nat) := chunksAux l.length l

/-- 64 bytes to 16 big-endian 32-bit words. -/
def chunkWords : List Nat → List Nat
  | b0 :: b1 :: b2 :: b3 :: rest =>
    (((b0 * 256 + b1) * 256 + b2) * 256 + b3) :: chunkWords rest
  | _ => []

/-- Extend 16 words to 80 by the SHA-1 recurrence. -/
def extendWords (ws : Array Nat) : Array Nat :=
  (List.range 64).foldl
    (fun w _ =>
      w.push (rotl32 1 ((w.getD (w.size - 3) 0) ^^^ (w.getD (w.size - 8) 0) ^^^
        (w.getD (w.size - 14) 0) ^^^ (w.getD (w.size - 16) 0))))
    ws

/-- The five SHA-1 state words. -/
structure H5 where
  h0 : Nat
  h1 : Nat
  h2 : Nat
  h3 : Nat
  h4 : Nat

/-- One SHA-1 round on the working state `(a, b, c, d, e)`. -/
def sha1Round (w : Array Nat) (st : Nat × Nat × Nat × Nat × Nat) (i : Nat) :
    Nat × Nat × Nat × Nat × Nat :=
  let a := st.1; let b := st.2.1; let c := st.2.2.1; let d := st.2.2.2.1; let e := st.2.2.2.2
  let f :=
    if i < 20 then (b &&& c) ||| ((4294967295 - b) &&& d)
    else if i < 40 then b ^^^ c ^^^ d
    else if i < 60 then (b &&& c) ||| (b &&& d) ||| (c &&& d)
    else b ^^^ c ^^^ d
  let k :=
    if i < 20 then 1518500249
    else if i < 40 then 1859775393
    else if i < 60 then 2400959708
    else 3395469782
  let temp := (rotl32 5 a + f + e + k + w.getD i 0) % 4294967296
  (temp, a, rotl32 30 b, c, d)

/-- Process one 64-byte chunk. -/
def processChunk (h : H5) (chunk : List Nat) : H5 :=
  let w := extendWords (Array.mk (chunkWords chunk))
  let st := (List.range 80).foldl (sha1Round w) (h.h0, h.h1, h.h2, h.h3, h.h4)
  ⟨(h.h0 + st.1) % 4294967296, (h.h1 + st.2.1) % 4294967296,
    (h.h2 + st.2.2.1) % 4294967296, (h.h3 + st.2.2.2.1) % 4294967296,
    (h.h4 + st.2.2.2.2) % 4294967296⟩

/-- SHA-1 digest (20 bytes) of a byte string, as `hashlib.sha1(.).digest()`. -/
def sha1Bytes (msg : List Nat) : List Nat :=
  let f := (chunks64 (sha1Pad msg)).foldl processChunk
    ⟨1732584193, 4023233417, 2562383102, 271733878, 3285377520⟩
  toBytesBE 4 f.h0 ++ toBytesBE 4 f.h1 ++ toBytesBE 4 f.h2 ++
    toBytesBE 4 f.h3 ++ toBytesBE 4 f.h4

/-! ## Bloom-filter encoder (`src/pprl/embedder/bloom_filters.py`) -/

/-- State of a `BloomFilterEncoder` instance. -/
structure BloomFilterEncoder where
  size : Nat
  num_hashes : Nat
  offset : Nat
  salt : Str
deriving DecidableEq

/-- `BloomFilterEncoder.__init__`: note the source stores `size - 1` in
the `size` attribute. -/
def BloomFilterEncoder.init (size : Nat) (num_hashes : Nat) (offset : Nat)
    (salt : Str) : BloomFilterEncoder :=
  ⟨size - 1, num_hashes, offset, salt⟩

/-- The hash digest of `str(gram) + str(i) + str(salt)` interpreted as a
little-endian unsigned integer (`hashlib.sha1` then
`int.from_bytes(digest, "little")`). -/
def BloomFilterEncoder.hashInt (enc : BloomFilterEncoder) (gram : Str) (i : Nat) : Nat :=
  intFromBytesLE (sha1Bytes (strUtf8 (gram ++ natToDec i ++ enc.salt)))

/-- `BloomFilterEncoder.feature_to_big_int_repr`. -/
def BloomFilterEncoder.feature_to_big_int_repr (enc : BloomFilterEncoder)
    (feature : List Str) : List Nat :=
  feature.flatMap (fun gram => (List.range enc.num_hashes).map (enc.hashInt gram))

/-- `BloomFilterEncoder.big_int_to_vec`: `x % self.size + offset` for
each integer (recall `self.size` holds the constructor's `size - 1`). -/
def BloomFilterEncoder.big_int_to_vec (enc : BloomFilterEncoder)
    (feature_ints : List Nat) (offset : Nat) : List Nat :=
  feature_ints.map (fun x => x % enc.size + offset)

/-- `BloomFilterEncoder.bloom_filter_vector`: hash, map to indices, then
deduplicate (`[*set(vec_idx)]`; matching is order-insensitive). -/
def BloomFilterEncoder.bloom_filter_vector (enc : BloomFilterEncoder)
    (feature : List Str) : List Nat :=
  (enc.big_int_to_vec (enc.feature_to_big_int_repr feature) enc.offset).dedup

/-- The index list as described by the spec's words: interpret each
digest as a little-endian integer, reduce mod `size` (the constructor
argument), add `offset`, deduplicate.  Kept for comparison with
`bloom_filter_vector`, which is translated from the source. -/
def bloom_filter_vector_spec (size num_hashes offset : Nat) (salt : Str)
    (feature : List Str) : List Nat :=
  ((BloomFilterEncoder.init size num_hashes offset salt).feature_to_big_int_repr
      feature |>.map (fun x => x % size + offset)).dedup

/-! ## Date-of-birth features (`src/pprl/embedder/features.py`) -/

/-- A parsed calendar date (what a successful `pd.to_datetime` yields). -/
structure Date where
  day : Nat
  month : Nat
  year : Nat
deriving DecidableEq

/-- Two-digit zero-padded decimal, as `%d` / `%m` in `strftime`. -/
def pad2 (n : Nat) : List Char := if n < 10 then '0' :: natToDec n else natToDec n

/-- Four-digit zero-padded decimal, as `%Y` in `strftime`. -/
def pad4 (n : Nat) : List Char :=
  if n < 10 then '0' :: '0' :: '0' :: natToDec n
  else if n < 100 then '0' :: '0' :: natToDec n
  else if n < 1000 then '0' :: natToDec n
  else natToDec n

def dayToken (d : Date) : Str := "day<".toList ++ pad2 d.day ++ ">".toList

def monthToken (d : Date) : Str := "month<".toList ++ pad2 d.month ++ ">".toList

def yearToken (d : Date) : Str := "year<".toList ++ pad4 d.year ++ ">".toList

/-- `datetimes.dt.strftime("day<%d>_month<%m>_year<%Y>")` on one date. -/
def strftimeDMY (d : Date) : Str :=
  dayToken d ++ '_' :: (monthToken d ++ '_' :: yearToken d)

/-- Python `str.split(sep)` for a one-character separator. -/
def splitChar (sep : Char) : List Char → List (List Char)
  | [] => [[]]
  | c :: rest =>
    match splitChar sep rest with
    | [] => [[c]]
    | t :: ts => if c = sep then [] :: t :: ts else (c :: t) :: ts

/-- A cell of a pandas object column: after `.str.split` + `.fillna("")`
the dob feature column mixes strings and lists of strings. -/
inductive PdCell where
  | cs (s : Str)
  | cl (l : List Str)
deriving DecidableEq

/-- `gen_dateofbirth_features`.  `pd.to_datetime(dob, errors="coerce",
...)` is an external pandas routine; it is modelled by the abstract
`parse` argument returning `none` exactly where pandas yields `NaT`
(unparseable, empty, or missing entries never raise).  The rest mirrors
the source pipeline: `strftime` (`NaT` becomes `NaN`), `.str.split("_")`
(`NaN` propagates), `.fillna("")`, then the default-substitution apply. -/
def gen_dateofbirth_features (parse : Str → Option Date) (dob : List (Option Str))
    (default : List Str) : List PdCell :=
  let datetimes := dob.map (fun o => o.bind parse)
  let formatted := datetimes.map (Option.map strftimeDMY)
  let splitted := formatted.map (Option.map (splitChar '_'))
  let filled := splitted.map (fun o =>
    match o with
    | some l => PdCell.cl l
    | none => PdCell.cs [])
  filled.map (fun c => if c = PdCell.cs [] then PdCell.cl default else c)


/-! ## Matrices, values and data frames

Numeric matrices (`np.ndarray` of floats) are modelled as lists of rows
of exact rationals.  A pandas data frame is a list of named columns of
dynamically typed cells. -/

abbrev Mat := List (List ℚ)

def matGet (A : Mat) (i j : Nat) : ℚ := (A.getD i []).getD j 0

/-- `np.eye(n)`. -/
def eyeM (n : Nat) : Mat :=
  (List.range n).map (fun i => (List.range n).map (fun j => if i = j then (1 : ℚ) else 0))

def addM (A B : Mat) : Mat := List.zipWith (fun r s => List.zipWith (· + ·) r s) A B

def smulM (c : ℚ) (A : Mat) : Mat := A.map (List.map (fun q => c * q))

def dotL (r s : List ℚ) : ℚ := (List.zipWith (· * ·) r s).sum

def matMulM (A B : Mat) : Mat :=
  let Bt := B.transpose
  A.map (fun r => Bt.map (dotL r))

/-- A cell of a pandas column.  `vninf` models the float `-inf` that
`update_thresholds` produces for a one-row frame. -/
inductive Value where
  | vnat (n : Nat)
  | vrat (q : ℚ)
  | vninf
  | vlistN (l : List Nat)
  | vlistS (l : List Str)
deriving DecidableEq

/-- Reading a cell that is expected to hold a list of Bloom indices.
Well-formed embedded frames only hold `vlistN` cells in `bf_indices`. -/
def Value.asNatList : Value → List Nat
  | .vlistN l => l
  | _ => []

/-- Reading a cell that is expected to hold a float. -/
def Value.asRat : Value → ℚ
  | .vrat q => q
  | _ => 0

structure DataFrame where
  cols : List (String × List Value)
deriving DecidableEq

def DataFrame.getCol (df : DataFrame) (name : String) : Option (List Value) :=
  (df.cols.find? (fun p => p.1 == name)).map (fun p => p.2)

def DataFrame.hasCol (df : DataFrame) (name : String) : Bool :=
  (df.getCol name).isSome

/-- Column assignment `df[name] = vals`: overwrite in place if the
column exists, else append it on the right. -/
def DataFrame.setCol (df : DataFrame) (name : String) (vals : List Value) : DataFrame :=
  if df.hasCol name then
    ⟨df.cols.map (fun p => if p.1 == name then (p.1, vals) else p)⟩
  else ⟨df.cols ++ [(name, vals)]⟩

/-- `len(df)`: all columns of a well-formed frame have equal length. -/
def DataFrame.nrows (df : DataFrame) : Nat :=
  match df.cols with
  | [] => 0
  | c :: _ => c.2.length

/-! ## Embedder (`src/pprl/embedder/embedder.py`)

`Embedder._compute_checksum` feeds the feature-factory entries (name
and `dill.dumps` of the function), `str(scm_matrix)` and
`str([bf_size, num_hashes, offset])` into MD5.  The digest is modelled
as the canonical tuple of those inputs, i.e. MD5 is treated as
collision-free; feature-factory functions are identified by their
serialised byte identity, modelled as an opaque string. -/

structure Checksum where
  ff : List (String × String)
  scm : Mat
  params : Nat × Nat × Nat
deriving DecidableEq

/-- The error outcomes of the fallible operations: the checksum
`assert`s, Python `ValueError`s, and the remaining organic failures
(other assertions, out-of-range indexing, shape mismatches). -/
inductive EmbError where
  | checksumMismatch
  | valueError
  | assertionError
deriving DecidableEq

structure Embedder where
  feature_factory : List (String × String)
  bf_size : Nat
  num_hashes : Nat
  offset : Nat
  salt : Str
  scm_matrix : Mat
  freq_matr_matched : Mat
  freq_matr_unmatched : Mat
  checksum : Checksum
deriving DecidableEq

def Embedder._compute_checksum (E : Embedder) : Checksum :=
  ⟨E.feature_factory, E.scm_matrix, (E.bf_size, E.num_hashes, E.offset)⟩

/-- `Embedder.__init__`: the three matrices start as identities of
dimension `bf_size + offset` and the checksum is computed once. -/
def Embedder.init (ff : List (String × String)) (bf_size num_hashes offset : Nat)
    (salt : Str) : Embedder :=
  let m := eyeM (bf_size + offset)
  let base : Embedder := ⟨ff, bf_size, num_hashes, offset, salt, m, m, m, ⟨[], [], (0, 0, 0)⟩⟩
  { base with checksum := base._compute_checksum }

/-- An `EmbeddedDataFrame` holds its data and the producing embedder's
checksum (`embedder_checksum`).  The live reference `self.embedder` is
modelled by passing the embedder explicitly to each operation. -/
structure EmbeddedDataFrame where
  df : DataFrame
  embedder_checksum : Checksum
deriving DecidableEq

/-- Sum of `A[i, j]` over the index grid `np.ix_(I, I)`. -/
def sumPairs (A : Mat) (I : List Nat) : ℚ :=
  (I.map (fun i => (I.map (fun j => matGet A i j)).sum)).sum

/-- `EmbeddedDataFrame._calculate_norm`: `np.sqrt` of the sparse sum of
`scm_matrix` entries.  `sqrtQ` is the abstract square root the float
library provides. -/
def EmbeddedDataFrame._calculate_norm (sqrtQ : ℚ → ℚ) (E : Embedder)
    (bf_indices : List Nat) : ℚ :=
  sqrtQ (sumPairs E.scm_matrix bf_indices)

/-- `EmbeddedDataFrame.update_norms`: checksum gate, then assign the
`bf_norms` column in place. -/
def EmbeddedDataFrame.update_norms (sqrtQ : ℚ → ℚ) (E : Embedder)
    (edf : EmbeddedDataFrame) : Except EmbError EmbeddedDataFrame :=
  if edf.embedder_checksum = E.checksum then
    match edf.df.getCol "bf_indices" with
    | some col =>
      .ok ⟨edf.df.setCol "bf_norms"
            (col.map (fun v => Value.vrat (EmbeddedDataFrame._calculate_norm sqrtQ E v.asNatList))),
          edf.embedder_checksum⟩
    | none => .error .assertionError
  else .error .checksumMismatch

/-- `EmbeddedDataFrame.to_bloom_matrix`: checksum gate, then the binary
indicator matrix with `bf_size + offset` columns. -/
def EmbeddedDataFrame.to_bloom_matrix (E : Embedder) (edf : EmbeddedDataFrame) :
    Except EmbError Mat :=
  if edf.embedder_checksum = E.checksum then
    match edf.df.getCol "bf_indices" with
    | some col =>
      .ok (col.map (fun v =>
        (List.range (E.bf_size + E.offset)).map
          (fun a => if a ∈ v.asNatList then (1 : ℚ) else 0)))
    | none => .error .assertionError
  else .error .checksumMismatch

/-- A `SimilarityArray`: scores plus optional per-axis threshold
vectors and the producing embedder's checksum. -/
structure SimilarityArray where
  nrows : Nat
  ncols : Nat
  data : Nat → Nat → ℚ
  thresholds : Option ((Nat → ℚ) × (Nat → ℚ))
  embedder_checksum : Option Checksum

/-- `Embedder.compare`: gate on both checksums, fill missing `bf_norms`
in place on the inputs, then `D₁ X₁ A X₂ᵀ D₂`.  The possibly updated
inputs are returned alongside the scores (state passing for the
in-place `update_norms` mutation). -/
def Embedder.compare (sqrtQ : ℚ → ℚ) (E : Embedder) (edf1 edf2 : EmbeddedDataFrame)
    (require_thresholds : Bool) :
    Except EmbError (SimilarityArray × EmbeddedDataFrame × EmbeddedDataFrame) :=
  if edf1.embedder_checksum = E.checksum ∧ edf2.embedder_checksum = E.checksum then
    match (if edf1.df.hasCol "bf_norms" then .ok edf1 else edf1.update_norms sqrtQ E),
        (if edf2.df.hasCol "bf_norms" then .ok edf2 else edf2.update_norms sqrtQ E) with
    | .ok e1, .ok e2 =>
      match e1.to_bloom_matrix E, e2.to_bloom_matrix E with
      | .ok X1, .ok X2 =>
        let A := E.scm_matrix
        let norms1 := ((e1.df.getCol "bf_norms").getD []).map Value.asRat
        let norms2 := ((e2.df.getCol "bf_norms").getD []).map Value.asRat
        let numer := matMulM (matMulM X1 A) X2.transpose
        let data : Nat → Nat → ℚ := fun i j =>
          (1 / norms1.getD i 0) * matGet numer i j * (1 / norms2.getD j 0)
        if e1.df.hasCol "thresholds" && e2.df.hasCol "thresholds" then
          .ok (⟨X1.length, X2.length, data,
            some (fun i => (((e1.df.getCol "thresholds").getD []).getD i .vninf).asRat,
              fun j => (((e2.df.getCol "thresholds").getD []).getD j .vninf).asRat),
            some E.checksum⟩, e1, e2)
        else if require_thresholds then .error .valueError
        else .ok (⟨X1.length, X2.length, data, none, some E.checksum⟩, e1, e2)
      | .error e, _ => .error e
      | _, .error e => .error e
    | .error e, _ => .error e
    | _, .error e => .error e
  else .error .checksumMismatch

/-- Row maximum after the diagonal is filled with `-inf`: the maximum
of the off-diagonal entries, or `-inf` itself for a one-column row. -/
def listMaxValue : List ℚ → Value
  | [] => .vninf
  | q :: qs => .vrat (qs.foldl max q)

/-- `EmbeddedDataFrame.update_thresholds`: checksum gate, self-compare
without thresholds, then assign the row-wise off-diagonal maxima. -/
def EmbeddedDataFrame.update_thresholds (sqrtQ : ℚ → ℚ) (E : Embedder)
    (edf : EmbeddedDataFrame) : Except EmbError EmbeddedDataFrame :=
  if edf.embedder_checksum = E.checksum then
    match Embedder.compare sqrtQ E edf edf false with
    | .ok (S, e1, _) =>
      .ok ⟨e1.df.setCol "thresholds"
            ((List.range S.nrows).map (fun i =>
              listMaxValue (((List.range S.ncols).filter (fun j => j ≠ i)).map (S.data i)))),
          e1.embedder_checksum⟩
    | .error e => .error e
  else .error .checksumMismatch

/-- `EmbeddedDataFrame.__init__`: record the embedder's checksum,
assert the `bf_indices` column exists, then optionally update norms
and thresholds. -/
def EmbeddedDataFrame.init (sqrtQ : ℚ → ℚ) (E : Embedder) (df : DataFrame)
    (update_norms update_thresholds : Bool) : Except EmbError EmbeddedDataFrame :=
  let edf : EmbeddedDataFrame := ⟨df, E.checksum⟩
  if df.hasCol "bf_indices" then
    match (if update_norms then edf.update_norms sqrtQ E else .ok edf) with
    | .ok e1 => if update_thresholds then e1.update_thresholds sqrtQ E else .ok e1
    | .error e => .error e
  else .error .assertionError

/-- `Embedder._joint_freq_matrix`: scatter-add 1 at every coordinate of
the per-row cross products, then symmetrise `(S + Sᵀ)/2`, optionally
divide by the number of rows. -/
def Embedder._joint_freq_matrix (E : Embedder) (x y : List (List Nat)) (prob : Bool) : Mat :=
  let bfsize := E.bf_size + E.offset
  let coords := (x.zip y).flatMap (fun p => p.1.flatMap (fun i => p.2.map (fun j => (i, j))))
  let S : Mat := (List.range bfsize).map (fun a => (List.range bfsize).map (fun b =>
    ((coords.count (a, b) : ℚ) + (coords.count (b, a) : ℚ)) / 2))
  if prob then smulM (1 / (x.length : ℚ)) S else S

/-- `Embedder.train`.  The random row permutation
`pd.Series(y).sample(frac=1)` is passed in as `y_jumbled`, and the
composite `nearest_pos_semi_definite(log(F₊ + eps) − log(F₋ + eps))`
-- inexact float routines (`np.log`, `np.linalg.eig`) -- is the
abstract parameter `scm_from_freqs`.  Note the source's final statement
is a bare `self._compute_checksum()` whose result is discarded, so the
`checksum` field is left unchanged, and no checksum gate guards the
inputs. -/
def Embedder.train (scm_from_freqs : Mat → Mat → ℚ → Mat) (E : Embedder)
    (edf1 edf2 : EmbeddedDataFrame) (y_jumbled : List (List Nat))
    (update : Bool) (learning_rate eps : ℚ) : Except EmbError Embedder :=
  let x := ((edf1.df.getCol "bf_indices").getD []).map Value.asNatList
  let y := ((edf2.df.getCol "bf_indices").getD []).map Value.asNatList
  if x.length = y.length then
    if 0 ≤ eps then
      if 0 < learning_rate ∧ learning_rate ≤ 1 then
        let fm := E._joint_freq_matrix x y false
        let fu := E._joint_freq_matrix x y_jumbled false
        let fm2 := if update then addM E.freq_matr_matched (smulM learning_rate fm)
          else addM (eyeM (E.bf_size + E.offset)) (smulM learning_rate fm)
        let fu2 := if update then addM E.freq_matr_unmatched (smulM learning_rate fu)
          else addM (eyeM (E.bf_size + E.offset)) (smulM learning_rate fu)
        .ok { E with
          freq_matr_matched := fm2
          freq_matr_unmatched := fu2
          scm_matrix := scm_from_freqs fm2 fu2 eps }
      else .error .assertionError
    else .error .assertionError
  else .error .assertionError

/-- `Embedder.to_pickle` with no path: `dill.dumps(self)` round-trips
the whole instance state, modelled as the state itself. -/
def Embedder.to_pickle (E : Embedder) : Embedder := E

/-- `Embedder.from_pickle`: load, then assert the stored checksum
equals a freshly recomputed one. -/
def Embedder.from_pickle (p : Embedder) : Except EmbError Embedder :=
  if p.checksum = p._compute_checksum then .ok p else .error .checksumMismatch

/-! ## Matching (`SimilarityArray.match`) -/

/-- All ways to pair the rows in `rows` with distinct columns from
`cols`, keeping row order. -/
def injAssignments : List Nat → List Nat → List (List (Nat × Nat))
  | [], _ => [[]]
  | r :: rs, cols =>
    cols.flatMap (fun c => (injAssignments rs (cols.erase c)).map (fun l => (r, c) :: l))

def totalWeight (S : Nat → Nat → ℚ) (l : List (Nat × Nat)) : ℚ :=
  (l.map (fun p => S p.1 p.2)).sum

/-- First maximiser of `f` in a list. -/
def argmaxBy (f : List (Nat × Nat) → ℚ) :
    List (List (Nat × Nat)) → Option (List (Nat × Nat))
  | [] => none
  | a :: rest => some (rest.foldl (fun b x => if f b < f x then x else b) a)

/-- `scipy.optimize.linear_sum_assignment(S, maximize=True)`, modelled
extensionally: among all full assignments of the shorter axis one of
maximal total weight (scipy's tie-break is unspecified; the theorems
below hold for any tie-break).  The mask of a masked array is dropped
by `np.asarray`, so only the raw scores enter. -/
def linear_sum_assignment (sa : SimilarityArray) : List (Nat × Nat) :=
  if sa.nrows ≤ sa.ncols then
    (argmaxBy (totalWeight sa.data)
      (injAssignments (List.range sa.nrows) (List.range sa.ncols))).getD []
  else
    ((argmaxBy (totalWeight (fun i j => sa.data j i))
      (injAssignments (List.range sa.ncols) (List.range sa.nrows))).getD []).map
        (fun p => (p.2, p.1))

/-- The mask accumulated by the threshold and absolute-cutoff masking
steps (`true` = cell masked out). -/
def maskFn (sa : SimilarityArray) (abs_cutoff rel_cutoff : ℚ)
    (tt : Option ((Nat → ℚ) × (Nat → ℚ))) (i j : Nat) : Bool :=
  (match tt with
   | some t => decide (sa.data i j < t.1 i + rel_cutoff) ||
       decide (sa.data i j < t.2 j + rel_cutoff)
   | none => false) || decide (sa.data i j < abs_cutoff)

/-- The body shared by both `require_thresholds` branches: either every
surviving cell in row-major order (`ma.where(S >= abs_cutoff)` treats
masked cells as `False`), or the Hungarian assignment filtered to
surviving cells. -/
def matchCore (sa : SimilarityArray) (abs_cutoff rel_cutoff : ℚ) (hungarian : Bool)
    (tt : Option ((Nat → ℚ) × (Nat → ℚ))) : List Nat × List Nat :=
  let mask := maskFn sa abs_cutoff rel_cutoff tt
  let pairs :=
    if hungarian then (linear_sum_assignment sa).filter (fun p => !mask p.1 p.2)
    else (List.range sa.nrows).flatMap (fun i =>
      ((List.range sa.ncols).filter
        (fun j => !mask i j && decide (abs_cutoff ≤ sa.data i j))).map (fun j => (i, j)))
  (pairs.map Prod.fst, pairs.map Prod.snd)

/-- `SimilarityArray.match` (the Lean keyword `match` forces the Lean
name `matchPairs`): threshold masking happens only under
`require_thresholds`, and fails if thresholds are absent. -/
def SimilarityArray.matchPairs (sa : SimilarityArray) (abs_cutoff rel_cutoff : ℚ)
    (hungarian require_thresholds : Bool) : Except EmbError (List Nat × List Nat) :=
  if require_thresholds then
    match sa.thresholds with
    | some tt => .ok (matchCore sa abs_cutoff rel_cutoff hungarian (some tt))
    | none => .error .valueError
  else .ok (matchCore sa abs_cutoff rel_cutoff hungarian none)

/-! ## Private-index assignment (`src/pprl/matching/perform.py`) -/

/-- Sequential positional assignment `out.iloc[idxs, col] = vals`. -/
def writeAt (col : List Nat) (idxs vals : List Nat) : List Nat :=
  (idxs.zip vals).foldl (fun c iv => c.set iv.1 iv.2) col

/-- Boolean-mask assignment `out.iloc[out[col] == 0, col] = repl`:
replace the zero entries from left to right. -/
def fillZeros : List Nat → List Nat → List Nat
  | [], _ => []
  | x :: xs, repl =>
    if x = 0 then
      match repl with
      | r :: rs => r :: fillZeros xs rs
      | [] => 0 :: fillZeros xs []
    else x :: fillZeros xs repl

/-- `add_private_index`.  The random draw
`rng.permutation(range(size_assumed, 3 * size_assumed))` is passed in
as `pool` (the theorems hypothesise it is such a permutation; the
generator itself is external).  The two leading `assert`s are the
source's; the further guard returns the shape/bounds errors that
numpy/pandas raise organically (positional indices out of range,
assignment length mismatches). -/
def add_private_index (df1 df2 : DataFrame) (m1 m2 : List Nat)
    (size_assumed : Nat) (colname : String) (pool : List Nat) :
    Except EmbError (DataFrame × DataFrame) :=
  if df1.hasCol colname || df2.hasCol colname then .error .assertionError
  else if ¬ (m1.Nodup ∧ m2.Nodup) then .error .assertionError
  else
    let inner := m1.length
    let n1 := df1.nrows
    let n2 := df2.nrows
    let outer := n1 + n2 - inner
    let priv := pool.take outer
    if m1.any (fun i => n1 ≤ i) || m2.any (fun i => n2 ≤ i) || m2.length ≠ inner
        || priv.length ≠ outer then .error .valueError
    else
      let col1a := writeAt (List.replicate n1 0) m1 (priv.take inner)
      let col2a := writeAt (List.replicate n2 0) m2 (priv.take inner)
      if col1a.count 0 ≠ ((priv.drop inner).take (n1 - inner)).length
          ∨ col2a.count 0 ≠ ((priv.drop n1).take (outer - n1)).length then
        .error .valueError
      else
        let col1 := fillZeros col1a ((priv.drop inner).take (n1 - inner))
        let col2 := fillZeros col2a ((priv.drop n1).take (outer - n1))
        .ok (df1.setCol colname (col1.map Value.vnat),
          df2.setCol colname (col2.map Value.vnat))

/-! ## Dense quadratic form (spec section 4.4) -/

/-- The {0,1}-indicator vector of an index list. -/
def indicatorVec (I : List Nat) (i : Nat) : ℚ := if i ∈ I then 1 else 0

/-- The dense quadratic form `x' A x` over dimension `D`, written from
the spec's words for comparison with the sparse implementation. -/
def quadFormDense (A : Mat) (x : Nat → ℚ) (D : Nat) : ℚ :=
  ∑ i in Finset.range D, ∑ j in Finset.range D, x i * matGet A i j * x j

/-! ## Concrete fixtures for witnesses and counterexamples -/

/-- A small embedder: empty feature factory, `bf_size = 2`, one hash,
zero offset, no salt. -/
def E0 : Embedder := Embedder.init [] 2 1 0 []

/-- A one-row frame holding only a `bf_indices` column. -/
def df0 : DataFrame := ⟨[("bf_indices", [Value.vlistN [0]])]⟩

/-- `df0` embedded by `E0` (checksum cached at creation). -/
def edf0 : EmbeddedDataFrame := ⟨df0, E0.checksum⟩

/-- A concrete stand-in for `train`'s composite numeric step
`nearest_pos_semi_definite(log(F₊ + eps) − log(F₋ + eps))`: like the
real pipeline on `E0`'s self-matched single row (where the matched and
unmatched joint-frequency matrices coincide, the log-ratio vanishes and
the PSD projection of the zero matrix is zero), it returns a matrix
different from the identity `scm_matrix` the embedder started with. -/
def zeroScm : Mat → Mat → ℚ → Mat := fun _ _ _ => [[0, 0], [0, 0]]

/-- `E0` after one training step: `scm_matrix` changed, but the stored
checksum is untouched (the source's `train` discards the value of its
final `self._compute_checksum()` call). -/
def staleE : Embedder :=
  (Embedder.train zeroScm E0 edf0 edf0 [[0]] true 1 0).toOption.getD E0

/-- A checksum that does not belong to `E0`. -/
def badChecksum : Checksum := ⟨[("x", "x")], [], (0, 0, 0)⟩

/-- A frame whose cached checksum disagrees with `E0.checksum`. -/
def edfBad : EmbeddedDataFrame := ⟨df0, badChecksum⟩

/-- A one-by-one similarity array with thresholds, for witnesses. -/
def sa0 : SimilarityArray :=
  ⟨1, 1, fun _ _ => 1, some (fun _ => 0, fun _ => 0), none⟩

/-! # Theorems and supporting lemmas -/

lemma mem_natToDecCore {c : Char} :
    ∀ fuel n acc, c ∈ natToDecCore fuel n acc → (∃ d, c = decChar d) ∨ c ∈ acc := by
  intro fuel
  induction fuel with
  | zero => intro n acc h; exact Or.inr h
  | succ m ih =>
    intro n acc h
    unfold natToDecCore at h
    by_cases hn : n < 10
    · rw [if_pos hn] at h
      rcases List.mem_cons.mp h with h | h
      · exact Or.inl ⟨n, h⟩
      · exact Or.inr h
    · rw [if_neg hn] at h
      rcases ih _ _ h with hd | hacc
      · exact Or.inl hd
      · rcases List.mem_cons.mp hacc with hh | h2
        · exact Or.inl ⟨n % 10, hh⟩
        · exact Or.inr h2

lemma decChar_ne_underscore (d : Nat) : decChar d ≠ '_' := by
  unfold decChar
  have h : d % 10 < 10 := Nat.mod_lt _ (by norm_num)
  revert h
  generalize d % 10 = k
  intro h
  interval_cases k <;> decide

lemma underscore_not_mem_natToDec (n : Nat) : '_' ∉ natToDec n := by
  intro h
  rcases mem_natToDecCore _ _ _ h with ⟨d, hd⟩ | h
  · exact decChar_ne_underscore d hd.symm
  · simp at h

lemma underscore_not_mem_pad2 (n : Nat) : '_' ∉ pad2 n := by
  unfold pad2
  have hn := underscore_not_mem_natToDec n
  split
  · intro hm
    rcases List.mem_cons.mp hm with hm | hm
    · exact absurd hm (by decide)
    · exact hn hm
  · exact hn

lemma underscore_not_mem_pad4 (n : Nat) : '_' ∉ pad4 n := by
  unfold pad4
  have hn := underscore_not_mem_natToDec n
  split
  · intro hm
    simp only [List.mem_cons] at hm
    rcases hm with hm | hm | hm | hm
    · exact absurd hm (by decide)
    · exact absurd hm (by decide)
    · exact absurd hm (by decide)
    · exact hn hm
  · split
    · intro hm
      simp only [List.mem_cons] at hm
      rcases hm with hm | hm | hm
      · exact absurd hm (by decide)
      · exact absurd hm (by decide)
      · exact hn hm
    · split
      · intro hm
        simp only [List.mem_cons] at hm
        rcases hm with hm | hm
        · exact absurd hm (by decide)
        · exact hn hm
      · exact hn

lemma underscore_not_mem_dayToken (d : Date) : '_' ∉ dayToken d := by
  unfold dayToken
  intro h
  rcases List.mem_append.mp h with h | h
  · rcases List.mem_append.mp h with h | h
    · revert h; decide
    · exact underscore_not_mem_pad2 _ h
  · revert h; decide

lemma underscore_not_mem_monthToken (d : Date) : '_' ∉ monthToken d := by
  unfold monthToken
  intro h
  rcases List.mem_append.mp h with h | h
  · rcases List.mem_append.mp h with h | h
    · revert h; decide
    · exact underscore_not_mem_pad2 _ h
  · revert h; decide

lemma underscore_not_mem_yearToken (d : Date) : '_' ∉ yearToken d := by
  unfold yearToken
  intro h
  rcases List.mem_append.mp h with h | h
  · rcases List.mem_append.mp h with h | h
    · revert h; decide
    · exact underscore_not_mem_pad4 _ h
  · revert h; decide

lemma splitChar_cons (sep c : Char) (rest : List Char) :
    splitChar sep (c :: rest) =
      match splitChar sep rest with
      | [] => [[c]]
      | t :: ts => if c = sep then [] :: t :: ts else (c :: t) :: ts := rfl

lemma splitChar_ne_nil (sep : Char) (l : List Char) : splitChar sep l ≠ [] := by
  cases l with
  | nil => simp [splitChar]
  | cons c rest =>
    rw [splitChar_cons]
    rcases h : splitChar sep rest with _ | ⟨t, ts⟩
    · simp
    · by_cases hc : c = sep <;> simp [hc]

lemma splitChar_of_not_mem {sep : Char} {l : List Char} (h : sep ∉ l) :
    splitChar sep l = [l] := by
  induction l with
  | nil => rfl
  | cons c rest ih =>
    have hc : c ≠ sep := fun he => h (he ▸ List.mem_cons_self c rest)
    have hrest : sep ∉ rest := fun hm => h (List.mem_cons_of_mem c hm)
    rw [splitChar_cons, ih hrest]
    simp [hc]

lemma splitChar_append {sep : Char} {a : List Char} (rest : List Char) (h : sep ∉ a) :
    splitChar sep (a ++ sep :: rest) = a :: splitChar sep rest := by
  induction a with
  | nil =>
    simp only [List.nil_append]
    rw [splitChar_cons]
    rcases hr : splitChar sep rest with _ | ⟨t, ts⟩
    · exact absurd hr (splitChar_ne_nil sep rest)
    · simp
  | cons c as ih =>
    have hc : c ≠ sep := fun he => h (he ▸ List.mem_cons_self c as)
    have has : sep ∉ as := fun hm => h (List.mem_cons_of_mem c hm)
    simp only [List.cons_append]
    rw [splitChar_cons, ih has]
    simp [hc]

lemma splitChar_strftimeDMY (d : Date) :
    splitChar '_' (strftimeDMY d) = [dayToken d, monthToken d, yearToken d] := by
  unfold strftimeDMY
  rw [splitChar_append _ (underscore_not_mem_dayToken d),
    splitChar_append _ (underscore_not_mem_monthToken d),
    splitChar_of_not_mem (underscore_not_mem_yearToken d)]

/-! ## C1: Bloom encoder index range and formula -/

/-- C1 (amended): for every non-empty token list and parameters with
`size ≥ 2`, `num_hashes ≥ 1`, `offset ≥ 0`, every element of the index
list returned by `bloom_filter_vector` lies in `[offset, offset + size)`
(indeed in `[offset, offset + size - 1)`); each index is obtained by
interpreting the token's hash digest as a little-endian unsigned
integer, reducing it mod `size - 1` (the constructor stores `size - 1`
in the `size` attribute), and adding `offset`. -/
theorem bloom_filter_vector_range_formula (size num_hashes offset : Nat) (salt : Str)
    (feature : List Str) (hsize : 2 ≤ size) :
    ∀ v ∈ (BloomFilterEncoder.init size num_hashes offset salt).bloom_filter_vector feature,
      (offset ≤ v ∧ v < offset + size) ∧
        ∃ gram ∈ feature, ∃ i < num_hashes,
          v = (BloomFilterEncoder.init size num_hashes offset salt).hashInt gram i
            % (size - 1) + offset := by
  intro v hv
  unfold BloomFilterEncoder.bloom_filter_vector at hv
  rw [List.mem_dedup] at hv
  unfold BloomFilterEncoder.big_int_to_vec at hv
  rw [List.mem_map] at hv
  obtain ⟨x, hx, rfl⟩ := hv
  unfold BloomFilterEncoder.feature_to_big_int_repr at hx
  rw [List.mem_flatMap] at hx
  obtain ⟨gram, hgram, hx2⟩ := hx
  rw [List.mem_map] at hx2
  obtain ⟨i, hi, rfl⟩ := hx2
  have hsz : (BloomFilterEncoder.init size num_hashes offset salt).size = size - 1 := rfl
  have hoff : (BloomFilterEncoder.init size num_hashes offset salt).offset = offset := rfl
  constructor
  · have hmod : (BloomFilterEncoder.init size num_hashes offset salt).hashInt gram i
        % (size - 1) < size - 1 := Nat.mod_lt _ (by omega)
    rw [hsz, hoff]
    omega
  · exact ⟨gram, hgram, i, List.mem_range.mp hi, by rw [hsz, hoff]⟩

set_option maxRecDepth 10000 in
/-- C1 witness: the amended theorem applied at `size = 3`,
`num_hashes = 1`, `offset = 0`, empty salt, token list `["b"]`, and the
encoder's concrete output index `1`. -/
theorem bloom_filter_vector_range_formula_witness :
    (0 ≤ 1 ∧ 1 < 0 + 3) ∧
      ∃ gram ∈ [['b']], ∃ i < 1,
        1 = (BloomFilterEncoder.init 3 1 0 []).hashInt gram i % (3 - 1) + 0 :=
  bloom_filter_vector_range_formula 3 1 0 [] [['b']] (by norm_num) 1 (by decide)

set_option maxRecDepth 10000 in
/-- C1 counterexample: at `size = 3`, `num_hashes = 1`, `offset = 0`,
empty salt, token `"b"`, the encoder's only index is the digest reduced
mod `size - 1 = 2`, which differs from the claim's `mod size`
formula (the digest is ≡ 1 mod 2 but ≡ 2 mod 3). -/
theorem bloom_filter_vector_not_mod_size :
    ¬ (∀ v ∈ (BloomFilterEncoder.init 3 1 0 []).bloom_filter_vector [['b']],
        ∃ gram ∈ [['b']], ∃ i ∈ List.range 1,
          v = (BloomFilterEncoder.init 3 1 0 []).hashInt gram i % 3 + 0) := by
  decide

/-! ## C9: date-of-birth features -/

/-- C9: for every input series of (possibly missing) date strings and
every supplied default token list, `gen_dateofbirth_features` returns,
per entry, the list `["day<DD>", "month<MM>", "year<YYYY>"]` when the
entry parses as a date, and exactly the supplied default list when the
parse yields `NaT` (unparseable, empty, or missing); the function is
total, so a parse failure never escapes as an error. -/
theorem gen_dateofbirth_features_spec (parse : Str → Option Date)
    (dob : List (Option Str)) (default : List Str) :
    gen_dateofbirth_features parse dob default =
      dob.map (fun o =>
        match o.bind parse with
        | some d => PdCell.cl [dayToken d, monthToken d, yearToken d]
        | none => PdCell.cl default) := by
  unfold gen_dateofbirth_features
  simp only [List.map_map]
  apply List.map_congr_left
  intro o _
  cases h : o.bind parse with
  | none => simp [Function.comp, h]
  | some d => simp [Function.comp, h, splitChar_strftimeDMY]

/-! ## C2: checksum after training -/

/-- C2 (code divergence): `train` returns the embedder with its stored
`checksum` exactly as it was — the source's final
`self._compute_checksum()` call discards its result — so whenever
training changes `scm_matrix`, the stored checksum no longer equals the
checksum freshly recomputed from the updated state. -/
theorem train_leaves_checksum_stale (scm_from_freqs : Mat → Mat → ℚ → Mat)
    (E : Embedder) (edf1 edf2 : EmbeddedDataFrame) (yj : List (List Nat))
    (u : Bool) (lr eps : ℚ) (E' : Embedder)
    (hok : Embedder.train scm_from_freqs E edf1 edf2 yj u lr eps = .ok E')
    (hcur : E.checksum = E._compute_checksum) :
    E'.checksum = E.checksum ∧
      (E'.scm_matrix ≠ E.scm_matrix → E'.checksum ≠ E'._compute_checksum) := by
  unfold Embedder.train at hok
  dsimp only at hok
  repeat split at hok
  all_goals first
    | exact Except.noConfusion hok
    | (injection hok with h
       subst h
       constructor
       · rfl
       · intro hne heq
         unfold Embedder._compute_checksum at heq
         dsimp only at heq hne
         rw [hcur] at heq
         unfold Embedder._compute_checksum at heq
         exact hne (congrArg Checksum.scm heq).symm)

/-- C2 witness: a concrete training step on `E0` (single matched row,
identity permutation) changes `scm_matrix` but not the stored checksum,
which therefore disagrees with the recomputed checksum. -/
theorem train_leaves_checksum_stale_witness :
    staleE.checksum = E0.checksum ∧ staleE.checksum ≠ staleE._compute_checksum := by
  have h := train_leaves_checksum_stale zeroScm E0 edf0 edf0 [[0]] true 1 0 staleE rfl rfl
  exact ⟨h.1, h.2 (by decide)⟩

/-! ## C3: embedder serialisation round-trip -/

/-- C3 counterexample: a trained embedder carries a stale stored
checksum (see C2), so deserialising its serialised form does not
succeed: `from_pickle`'s load assertion fails. -/
theorem from_pickle_to_pickle_fails_after_train :
    Embedder.from_pickle (Embedder.to_pickle staleE) = .error .checksumMismatch := by
  rfl

/-- C3 (amended): for every embedder whose stored checksum is current —
in particular every freshly initialised (untrained) embedder —
deserialising the serialised form succeeds and yields the embedder
itself, with the stored checksum equal to the freshly recomputed one;
a checksum mismatch at load is a fatal load error, which is exactly why
a trained embedder (stale checksum, C2) fails to round-trip. -/
theorem from_pickle_to_pickle_roundtrip (E : Embedder)
    (h : E.checksum = E._compute_checksum) :
    Embedder.from_pickle (Embedder.to_pickle E) = .ok E ∧
      (Embedder.to_pickle E).checksum = (Embedder.to_pickle E)._compute_checksum := by
  unfold Embedder.from_pickle Embedder.to_pickle
  rw [if_pos h]
  exact ⟨rfl, h⟩

/-- C3 witness: the round-trip theorem applied to the untrained `E0`. -/
theorem from_pickle_to_pickle_roundtrip_witness :
    Embedder.from_pickle (Embedder.to_pickle E0) = .ok E0 ∧
      (Embedder.to_pickle E0).checksum = (Embedder.to_pickle E0)._compute_checksum :=
  from_pickle_to_pickle_roundtrip E0 rfl

/-! ## C4: checksum gates on operations consuming an embedded frame -/

/-- C4 (amended): when an embedded frame's cached checksum differs from
its embedder's current checksum, `update_norms`, `update_thresholds`,
`to_bloom_matrix` and `compare` (the frame in either argument position)
all fail with the checksum consistency error; `train`, however,
performs no checksum check (see the counterexample). -/
theorem consumers_fail_on_checksum_mismatch (sqrtQ : ℚ → ℚ) (E : Embedder)
    (edf other : EmbeddedDataFrame) (rt : Bool)
    (h : edf.embedder_checksum ≠ E.checksum) :
    edf.update_norms sqrtQ E = .error .checksumMismatch ∧
    edf.update_thresholds sqrtQ E = .error .checksumMismatch ∧
    edf.to_bloom_matrix E = .error .checksumMismatch ∧
    Embedder.compare sqrtQ E edf other rt = .error .checksumMismatch ∧
    Embedder.compare sqrtQ E other edf rt = .error .checksumMismatch := by
  refine ⟨?_, ?_, ?_, ?_, ?_⟩
  · unfold EmbeddedDataFrame.update_norms
    rw [if_neg h]
  · unfold EmbeddedDataFrame.update_thresholds
    rw [if_neg h]
  · unfold EmbeddedDataFrame.to_bloom_matrix
    rw [if_neg h]
  · unfold Embedder.compare
    rw [if_neg (fun hand => h hand.1)]
  · unfold Embedder.compare
    rw [if_neg (fun hand => h hand.2)]

/-- C4 witness: the gate theorem applied to a concrete frame whose
cached checksum disagrees with `E0`'s. -/
theorem consumers_fail_on_checksum_mismatch_witness :
    EmbeddedDataFrame.update_norms id E0 edfBad = .error .checksumMismatch ∧
    EmbeddedDataFrame.update_thresholds id E0 edfBad = .error .checksumMismatch ∧
    EmbeddedDataFrame.to_bloom_matrix E0 edfBad = .error .checksumMismatch ∧
    Embedder.compare id E0 edfBad edf0 true = .error .checksumMismatch ∧
    Embedder.compare id E0 edf0 edfBad true = .error .checksumMismatch :=
  consumers_fail_on_checksum_mismatch id E0 edfBad edf0 true (by decide)

/-- C4 counterexample: `train` consumes embedded frames without any
checksum verification — on a frame whose cached checksum differs from
the embedder's it succeeds instead of failing. -/
theorem train_ignores_checksum_mismatch :
    edfBad.embedder_checksum ≠ E0.checksum ∧
      (Embedder.train zeroScm E0 edfBad edfBad [[0]] true 1 0).toOption.isSome = true :=
  ⟨by decide, by rfl⟩

/-! ## C10: `compare` fills missing norms in place -/

lemma fst_replace (name : String) (vals : List Value) (p : String × List Value) :
    (if p.1 == name then (p.1, vals) else p).1 = p.1 := by
  split <;> rfl

lemma getCol_setCol_self (df : DataFrame) (name : String) (vals : List Value) :
    (df.setCol name vals).getCol name = some vals := by
  unfold DataFrame.setCol
  split
  case isTrue hs =>
    unfold DataFrame.hasCol DataFrame.getCol at hs
    unfold DataFrame.getCol
    dsimp only
    rw [List.find?_map]
    have hcomp : ((fun p : String × List Value => p.1 == name) ∘
        (fun p => if p.1 == name then (p.1, vals) else p)) =
        fun p : String × List Value => p.1 == name := by
      funext p
      simp only [Function.comp]
      rw [fst_replace]
    rw [hcomp]
    cases hf : List.find? (fun p => p.1 == name) df.cols with
    | none => rw [hf] at hs; simp at hs
    | some p0 =>
      have hp0 := List.find?_some hf
      simp only at hp0
      have hpe : p0.1 = name := eq_of_beq hp0
      simp [hp0, hpe]
  case isFalse hs =>
    unfold DataFrame.hasCol DataFrame.getCol at hs
    unfold DataFrame.getCol
    dsimp only
    rw [List.find?_append]
    cases hf : List.find? (fun p => p.1 == name) df.cols with
    | some p0 => rw [hf] at hs; simp at hs
    | none => simp

lemma getCol_setCol_ne (df : DataFrame) (name other : String) (vals : List Value)
    (hne : other ≠ name) :
    (df.setCol name vals).getCol other = df.getCol other := by
  unfold DataFrame.setCol
  split
  case isTrue hs =>
    unfold DataFrame.getCol
    dsimp only
    rw [List.find?_map]
    have hcomp : ((fun p : String × List Value => p.1 == other) ∘
        (fun p => if p.1 == name then (p.1, vals) else p)) =
        fun p : String × List Value => p.1 == other := by
      funext p
      simp only [Function.comp]
      rw [fst_replace]
    rw [hcomp]
    cases hf : List.find? (fun p => p.1 == other) df.cols with
    | none => simp
    | some p0 =>
      have hp0 := List.find?_some hf
      simp only at hp0
      have hpne : p0.1 ≠ name := by
        rw [eq_of_beq hp0]
        exact hne
      simp [hpne]
  case isFalse hs =>
    unfold DataFrame.getCol
    dsimp only
    rw [List.find?_append]
    have hsingle : List.find? (fun p : String × List Value => p.1 == other)
        [(name, vals)] = none := by
      simp only [List.find?_singleton]
      rw [if_neg]
      intro hb
      exact hne (eq_of_beq hb).symm
    rw [hsingle]
    cases List.find? (fun p : String × List Value => p.1 == other) df.cols <;> rfl

lemma norms_step_ok (sqrtQ : ℚ → ℚ) (E : Embedder) (edf : EmbeddedDataFrame)
    (c : List Value) (h : edf.embedder_checksum = E.checksum)
    (hb : edf.df.getCol "bf_indices" = some c) :
    ∃ e1, (if edf.df.hasCol "bf_norms" then Except.ok edf
        else edf.update_norms sqrtQ E) = .ok e1 ∧
      e1.embedder_checksum = edf.embedder_checksum ∧
      e1.df.getCol "bf_indices" = some c ∧
      e1.df.hasCol "bf_norms" = true ∧
      (∀ name, name ≠ "bf_norms" → e1.df.getCol name = edf.df.getCol name) ∧
      (edf.df.hasCol "bf_norms" = false → edf.update_norms sqrtQ E = .ok e1) := by
  cases hn : edf.df.hasCol "bf_norms" with
  | true =>
    exact ⟨edf, rfl, rfl, hb, hn, fun _ _ => rfl, fun hfalse => by cases hfalse⟩
  | false =>
    have hupdate : edf.update_norms sqrtQ E =
        .ok ⟨edf.df.setCol "bf_norms" (c.map (fun v => Value.vrat
          (EmbeddedDataFrame._calculate_norm sqrtQ E v.asNatList))), edf.embedder_checksum⟩ := by
      unfold EmbeddedDataFrame.update_norms
      rw [if_pos h, hb]
    refine ⟨⟨edf.df.setCol "bf_norms" (c.map (fun v => Value.vrat
        (EmbeddedDataFrame._calculate_norm sqrtQ E v.asNatList))), edf.embedder_checksum⟩,
      ?_, rfl, ?_, ?_, ?_, fun _ => hupdate⟩
    · exact hupdate
    · rw [getCol_setCol_ne _ _ _ _ (by decide)]
      exact hb
    · unfold DataFrame.hasCol
      rw [getCol_setCol_self]
      rfl
    · intro name hnm
      exact getCol_setCol_ne _ _ _ _ hnm

lemma to_bloom_matrix_ok (E : Embedder) (edf : EmbeddedDataFrame) (c : List Value)
    (h : edf.embedder_checksum = E.checksum) (hb : edf.df.getCol "bf_indices" = some c) :
    edf.to_bloom_matrix E = .ok (c.map (fun v =>
      (List.range (E.bf_size + E.offset)).map
        (fun a => if a ∈ v.asNatList then (1 : ℚ) else 0))) := by
  unfold EmbeddedDataFrame.to_bloom_matrix
  rw [if_pos h, hb]

/-- C10: for embedded frames whose checksums match the embedder's,
`compare(T1, T2, require_thresholds := false)` never fails for missing
norms: when an input lacks a `bf_norms` column, the result's returned
tables arise from applying `update_norms` to that very input (the
in-place mutation, modelled by state passing) before the similarity
matrix is computed, and every column other than `bf_norms` of both
inputs is left unchanged. -/
theorem compare_updates_norms_in_place (sqrtQ : ℚ → ℚ) (E : Embedder)
    (edf1 edf2 : EmbeddedDataFrame) (c1 c2 : List Value)
    (h1 : edf1.embedder_checksum = E.checksum)
    (h2 : edf2.embedder_checksum = E.checksum)
    (hb1 : edf1.df.getCol "bf_indices" = some c1)
    (hb2 : edf2.df.getCol "bf_indices" = some c2) :
    ∃ S e1 e2, Embedder.compare sqrtQ E edf1 edf2 false = .ok (S, e1, e2) ∧
      (edf1.df.hasCol "bf_norms" = false → edf1.update_norms sqrtQ E = .ok e1) ∧
      (edf2.df.hasCol "bf_norms" = false → edf2.update_norms sqrtQ E = .ok e2) ∧
      e1.df.hasCol "bf_norms" = true ∧ e2.df.hasCol "bf_norms" = true ∧
      (∀ name, name ≠ "bf_norms" → e1.df.getCol name = edf1.df.getCol name) ∧
      (∀ name, name ≠ "bf_norms" → e2.df.getCol name = edf2.df.getCol name) := by
  obtain ⟨e1, he1, hcs1, hbi1, hn1, hf1, hu1⟩ := norms_step_ok sqrtQ E edf1 c1 h1 hb1
  obtain ⟨e2, he2, hcs2, hbi2, hn2, hf2, hu2⟩ := norms_step_ok sqrtQ E edf2 c2 h2 hb2
  have ht1 := to_bloom_matrix_ok E e1 c1 (hcs1.trans h1) hbi1
  have ht2 := to_bloom_matrix_ok E e2 c2 (hcs2.trans h2) hbi2
  unfold Embedder.compare
  rw [if_pos ⟨h1, h2⟩, he1, he2]
  dsimp only
  rw [ht1, ht2]
  dsimp only
  cases hthr : (e1.df.hasCol "thresholds" && e2.df.hasCol "thresholds") with
  | true => exact ⟨_, e1, e2, rfl, hu1, hu2, hn1, hn2, hf1, hf2⟩
  | false => exact ⟨_, e1, e2, rfl, hu1, hu2, hn1, hn2, hf1, hf2⟩

/-- C10 witness: the theorem applied at a concrete embedder and frame
that lacks `bf_norms`. -/
theorem compare_updates_norms_in_place_witness :
    ∃ S e1 e2, Embedder.compare id E0 edf0 edf0 false = .ok (S, e1, e2) ∧
      (edf0.df.hasCol "bf_norms" = false → edf0.update_norms id E0 = .ok e1) ∧
      (edf0.df.hasCol "bf_norms" = false → edf0.update_norms id E0 = .ok e2) ∧
      e1.df.hasCol "bf_norms" = true ∧ e2.df.hasCol "bf_norms" = true ∧
      (∀ name, name ≠ "bf_norms" → e1.df.getCol name = edf0.df.getCol name) ∧
      (∀ name, name ≠ "bf_norms" → e2.df.getCol name = edf0.df.getCol name) :=
  compare_updates_norms_in_place id E0 edf0 edf0 [Value.vlistN [0]] [Value.vlistN [0]]
    rfl rfl rfl rfl

/-! ## C5 and C6: matching uniqueness and threshold obedience -/

lemma injAssignments_mem :
    ∀ (rows cols : List Nat) (l : List (Nat × Nat)), l ∈ injAssignments rows cols →
      l.map Prod.fst = rows ∧ (∀ p ∈ l, p.2 ∈ cols) ∧
        (cols.Nodup → (l.map Prod.snd).Nodup) := by
  intro rows
  induction rows with
  | nil =>
    intro cols l hl
    simp only [injAssignments, List.mem_singleton] at hl
    subst hl
    simp
  | cons r rs ih =>
    intro cols l hl
    simp only [injAssignments, List.mem_flatMap, List.mem_map] at hl
    obtain ⟨c, hc, l', hl', rfl⟩ := hl
    obtain ⟨hfst, hsnd, hnd⟩ := ih (cols.erase c) l' hl'
    refine ⟨by simp [hfst], ?_, ?_⟩
    · intro p hp
      rcases List.mem_cons.mp hp with rfl | hp
      · exact hc
      · exact List.mem_of_mem_erase (hsnd p hp)
    · intro hcnd
      simp only [List.map_cons, List.nodup_cons]
      refine ⟨?_, hnd (hcnd.erase c)⟩
      intro hmem
      rw [List.mem_map] at hmem
      obtain ⟨p, hp, hpc⟩ := hmem
      have hpe := hsnd p hp
      rw [hpc] at hpe
      exact hcnd.not_mem_erase hpe

lemma argmaxBy_mem {f : List (Nat × Nat) → ℚ} :
    ∀ {ls : List (List (Nat × Nat))} {l : List (Nat × Nat)},
      argmaxBy f ls = some l → l ∈ ls := by
  intro ls
  cases ls with
  | nil => intro l h; cases h
  | cons a rest =>
    intro l h
    injection h with h
    subst h
    have key : ∀ (xs : List (List (Nat × Nat))) (acc : List (Nat × Nat)),
        (xs.foldl (fun b x => if f b < f x then x else b) acc) = acc ∨
          (xs.foldl (fun b x => if f b < f x then x else b) acc) ∈ xs := by
      intro xs
      induction xs with
      | nil => intro acc; exact Or.inl rfl
      | cons x xs ihx =>
        intro acc
        simp only [List.foldl_cons]
        rcases ihx (if f acc < f x then x else acc) with h | h
        · rw [h]
          by_cases hc : f acc < f x
          · rw [if_pos hc]
            exact Or.inr (List.mem_cons_self x xs)
          · rw [if_neg hc]
            exact Or.inl rfl
        · exact Or.inr (List.mem_cons_of_mem x h)
    rcases key rest a with h | h
    · rw [h]
      exact List.mem_cons_self a rest
    · exact List.mem_cons_of_mem a h

lemma linear_sum_assignment_nodup (sa : SimilarityArray) :
    ((linear_sum_assignment sa).map Prod.fst).Nodup ∧
      ((linear_sum_assignment sa).map Prod.snd).Nodup := by
  unfold linear_sum_assignment
  split
  · cases hm : argmaxBy (totalWeight sa.data)
        (injAssignments (List.range sa.nrows) (List.range sa.ncols)) with
    | none => simp
    | some l =>
      obtain ⟨hfst, _, hnd⟩ := injAssignments_mem _ _ _ (argmaxBy_mem hm)
      simp only [Option.getD_some]
      exact ⟨by rw [hfst]; exact List.nodup_range _, hnd (List.nodup_range _)⟩
  · cases hm : argmaxBy (totalWeight fun i j => sa.data j i)
        (injAssignments (List.range sa.ncols) (List.range sa.nrows)) with
    | none => simp
    | some l =>
      obtain ⟨hfst, _, hnd⟩ := injAssignments_mem _ _ _ (argmaxBy_mem hm)
      simp only [Option.getD_some]
      constructor
      · rw [List.map_map]
        exact hnd (List.nodup_range _)
      · rw [List.map_map]
        have hcomp : (Prod.snd ∘ fun p : Nat × Nat => (p.2, p.1)) = Prod.fst := rfl
        rw [hcomp, hfst]
        exact List.nodup_range _

lemma maskFn_eq_false {sa : SimilarityArray} {abs_cutoff rel_cutoff : ℚ}
    {t1 t2 : Nat → ℚ} {i j : Nat}
    (h : maskFn sa abs_cutoff rel_cutoff (some (t1, t2)) i j = false) :
    t1 i + rel_cutoff ≤ sa.data i j ∧ t2 j + rel_cutoff ≤ sa.data i j ∧
      abs_cutoff ≤ sa.data i j := by
  unfold maskFn at h
  simp only [Bool.or_eq_false_iff, decide_eq_false_iff_not, not_lt] at h
  exact ⟨h.1.1, h.1.2, h.2⟩

lemma mem_matchCore_zip {sa : SimilarityArray} {abs_cutoff rel_cutoff : ℚ}
    {hungarian : Bool} {tt : Option ((Nat → ℚ) × (Nat → ℚ))} {p : Nat × Nat}
    (hp : p ∈ (matchCore sa abs_cutoff rel_cutoff hungarian tt).1.zip
      (matchCore sa abs_cutoff rel_cutoff hungarian tt).2) :
    maskFn sa abs_cutoff rel_cutoff tt p.1 p.2 = false := by
  simp only [matchCore] at hp
  rw [List.zip_map'] at hp
  rw [List.mem_map] at hp
  obtain ⟨q, hq, heq⟩ := hp
  rw [Prod.mk.eta] at heq
  subst heq
  cases hungarian with
  | true =>
    rw [if_pos rfl] at hq
    obtain ⟨_, hpass⟩ := List.mem_filter.mp hq
    cases hmask : maskFn sa abs_cutoff rel_cutoff tt q.1 q.2 with
    | false => rfl
    | true => rw [hmask] at hpass; cases hpass
  | false =>
    rw [if_neg Bool.false_ne_true] at hq
    rw [List.mem_flatMap] at hq
    obtain ⟨i, _, hq⟩ := hq
    rw [List.mem_map] at hq
    obtain ⟨j, hj, heq⟩ := hq
    obtain ⟨_, hcond⟩ := List.mem_filter.mp hj
    rw [Bool.and_eq_true] at hcond
    subst heq
    cases hmask : maskFn sa abs_cutoff rel_cutoff tt i j with
    | false => rfl
    | true => rw [hmask] at hcond; cases hcond.1

/-- C5: for every similarity array carrying thresholds,
`match(abs_cutoff, rel_cutoff, hungarian := true, require_thresholds :=
true)` returns a pair of equal-length index vectors with no duplicate
row index and no duplicate column index: a one-to-one partial
matching. -/
theorem match_hungarian_nodup (sa : SimilarityArray) (t1 t2 : Nat → ℚ)
    (abs_cutoff rel_cutoff : ℚ) (out : List Nat × List Nat)
    (hth : sa.thresholds = some (t1, t2))
    (hok : sa.matchPairs abs_cutoff rel_cutoff true true = .ok out) :
    out.1.length = out.2.length ∧ out.1.Nodup ∧ out.2.Nodup := by
  unfold SimilarityArray.matchPairs at hok
  rw [if_pos rfl, hth] at hok
  injection hok with h
  subst h
  obtain ⟨hf, hs⟩ := linear_sum_assignment_nodup sa
  unfold matchCore
  dsimp only
  refine ⟨by simp, ?_, ?_⟩
  · exact List.Nodup.sublist ((List.filter_sublist _).map Prod.fst) hf
  · exact List.Nodup.sublist ((List.filter_sublist _).map Prod.snd) hs

/-- C5 witness: the uniqueness theorem applied to a concrete 1-by-1
similarity array with thresholds. -/
theorem match_hungarian_nodup_witness :
    ([0] : List Nat).length = ([0] : List Nat).length ∧
      ([0] : List Nat).Nodup ∧ ([0] : List Nat).Nodup :=
  match_hungarian_nodup sa0 (fun _ => 0) (fun _ => 0) 0 0 ([0], [0]) rfl (by
    simp [SimilarityArray.matchPairs, matchCore, maskFn, linear_sum_assignment,
      argmaxBy, injAssignments, totalWeight, sa0]
    decide)

/-- C6: for every similarity array with per-axis thresholds `(t1, t2)`
and every `abs_cutoff` and `rel_cutoff`, every pair `(i, j)` returned by
`match` (with either value of `hungarian`, under the default
`require_thresholds := true`) satisfies `S[i,j] ≥ t1[i] + rel_cutoff`,
`S[i,j] ≥ t2[j] + rel_cutoff` and `S[i,j] ≥ abs_cutoff`. -/
theorem match_respects_thresholds (sa : SimilarityArray) (t1 t2 : Nat → ℚ)
    (abs_cutoff rel_cutoff : ℚ) (hungarian : Bool) (out : List Nat × List Nat)
    (hth : sa.thresholds = some (t1, t2))
    (hok : sa.matchPairs abs_cutoff rel_cutoff hungarian true = .ok out) :
    ∀ p ∈ out.1.zip out.2,
      t1 p.1 + rel_cutoff ≤ sa.data p.1 p.2 ∧
      t2 p.2 + rel_cutoff ≤ sa.data p.1 p.2 ∧
      abs_cutoff ≤ sa.data p.1 p.2 := by
  unfold SimilarityArray.matchPairs at hok
  rw [if_pos rfl, hth] at hok
  injection hok with h
  subst h
  intro p hp
  exact maskFn_eq_false (mem_matchCore_zip hp)

/-- C6 witness: the threshold-obedience theorem applied to the same
concrete similarity array, at the returned pair `(0, 0)`. -/
theorem match_respects_thresholds_witness :
    (0 : ℚ) + 0 ≤ sa0.data 0 0 ∧ (0 : ℚ) + 0 ≤ sa0.data 0 0 ∧
      (0 : ℚ) ≤ sa0.data 0 0 :=
  match_respects_thresholds sa0 (fun _ => 0) (fun _ => 0) 0 0 true ([0], [0]) rfl (by
    simp [SimilarityArray.matchPairs, matchCore, maskFn, linear_sum_assignment,
      argmaxBy, injAssignments, totalWeight, sa0]
    decide) (0, 0) (by decide)

/-! ## C7: private-index assignment -/

lemma writeAt_nil_vals (col idxs : List Nat) : writeAt col idxs [] = col := by
  unfold writeAt
  cases idxs <;> rfl

lemma writeAt_cons (col : List Nat) (i v : Nat) (idxs vals : List Nat) :
    writeAt col (i :: idxs) (v :: vals) = writeAt (col.set i v) idxs vals := rfl

lemma writeAt_length : ∀ (idxs vals col : List Nat),
    (writeAt col idxs vals).length = col.length := by
  intro idxs
  induction idxs with
  | nil => intro vals col; rfl
  | cons i is ih =>
    intro vals col
    cases vals with
    | nil => rw [writeAt_nil_vals]
    | cons v vs => rw [writeAt_cons, ih, List.length_set]

lemma writeAt_getD_not_mem : ∀ (idxs vals col : List Nat) (j : Nat), j ∉ idxs →
    (writeAt col idxs vals).getD j 0 = col.getD j 0 := by
  intro idxs
  induction idxs with
  | nil => intro vals col j _; rfl
  | cons i is ih =>
    intro vals col j hj
    cases vals with
    | nil => rw [writeAt_nil_vals]
    | cons v vs =>
      rw [writeAt_cons, ih _ _ _ (fun h => hj (List.mem_cons_of_mem i h))]
      have hij : i ≠ j := fun h => hj (h ▸ List.mem_cons_self i is)
      simp [List.getD_eq_getElem?_getD, List.getElem?_set_ne hij]

lemma writeAt_getD_mem : ∀ (idxs vals col : List Nat) (k : Nat), idxs.Nodup →
    k < idxs.length → vals.length = idxs.length → (∀ i ∈ idxs, i < col.length) →
    (writeAt col idxs vals).getD (idxs.getD k 0) 0 = vals.getD k 0 := by
  intro idxs
  induction idxs with
  | nil => intro vals col k _ hk; exact absurd hk (Nat.not_lt_zero k)
  | cons i is ih =>
    intro vals col k hnd hk hlen hbound
    cases vals with
    | nil => simp at hlen
    | cons v vs =>
      rw [writeAt_cons]
      cases k with
      | zero =>
        have hnotmem : i ∉ is := (List.nodup_cons.mp hnd).1
        rw [show (i :: is).getD 0 0 = i from rfl,
          writeAt_getD_not_mem is vs _ i hnotmem]
        have hilt : i < col.length := hbound i (List.mem_cons_self i is)
        simp [List.getD_eq_getElem?_getD, List.getElem?_set_self hilt]
      | succ m =>
        rw [show (i :: is).getD (m + 1) 0 = is.getD m 0 from rfl,
          show (v :: vs).getD (m + 1) 0 = vs.getD m 0 from rfl]
        refine ih vs (col.set i v) m (List.nodup_cons.mp hnd).2 (by simpa using hk)
          (by simpa using hlen) ?_
        intro a ha
        rw [List.length_set]
        exact hbound a (List.mem_cons_of_mem i ha)

lemma set_zero_perm : ∀ (col : List Nat) (i v : Nat), i < col.length →
    col.getD i 0 = 0 → (col.set i v ++ [0]).Perm (v :: col) := by
  intro col
  induction col with
  | nil => intro i v hi _; exact absurd hi (Nat.not_lt_zero i)
  | cons x xs ih =>
    intro i v hi h0
    cases i with
    | zero =>
      have hx : x = 0 := h0
      subst hx
      exact List.Perm.cons v (List.perm_append_singleton 0 xs)
    | succ j =>
      have hstep := ih j v (by simpa using hi) (by simpa using h0)
      rw [show ((x :: xs).set (j + 1) v) = x :: xs.set j v from rfl,
        show (x :: xs.set j v) ++ [0] = x :: (xs.set j v ++ [0]) from rfl]
      exact (List.Perm.cons x hstep).trans (List.Perm.swap v x xs)

lemma writeAt_perm : ∀ (idxs vals col : List Nat), idxs.Nodup →
    vals.length = idxs.length → (∀ i ∈ idxs, i < col.length) →
    (∀ i ∈ idxs, col.getD i 0 = 0) →
    (writeAt col idxs vals ++ List.replicate idxs.length 0).Perm (vals ++ col) := by
  intro idxs
  induction idxs with
  | nil =>
    intro vals col _ hlen _ _
    rw [List.length_eq_zero.mp hlen]
    simp [writeAt]
  | cons i is ih =>
    intro vals col hnd hlen hbound hzero
    cases vals with
    | nil => simp at hlen
    | cons v vs =>
      rw [writeAt_cons]
      have hset_len : ∀ a ∈ is, a < (col.set i v).length := by
        intro a ha
        rw [List.length_set]
        exact hbound a (List.mem_cons_of_mem i ha)
      have hset_zero : ∀ a ∈ is, (col.set i v).getD a 0 = 0 := by
        intro a ha
        have hai : i ≠ a := fun h => (List.nodup_cons.mp hnd).1 (h ▸ ha)
        rw [List.getD_eq_getElem?_getD, List.getElem?_set_ne hai,
          ← List.getD_eq_getElem?_getD]
        exact hzero a (List.mem_cons_of_mem i ha)
      have hperm := ih vs (col.set i v) (List.nodup_cons.mp hnd).2
        (by simpa using hlen) hset_len hset_zero
      have p4 : (writeAt (col.set i v) is vs ++ (List.replicate is.length 0 ++ [0])).Perm
          ((vs ++ col.set i v) ++ [0]) := by
        rw [← List.append_assoc]
        exact List.Perm.append_right [0] hperm
      have p6 : ((vs ++ col.set i v) ++ [0]).Perm (vs ++ (v :: col)) := by
        rw [List.append_assoc]
        exact List.Perm.append_left vs
          (set_zero_perm col i v (hbound i (List.mem_cons_self i is))
            (hzero i (List.mem_cons_self i is)))
      rw [show (i :: is).length = is.length + 1 from rfl, List.replicate_succ]
      exact ((List.Perm.append_left _ (List.perm_append_singleton 0 _).symm).trans
        (p4.trans (p6.trans List.perm_middle)))

lemma fillZeros_length : ∀ (col repl : List Nat),
    (fillZeros col repl).length = col.length := by
  intro col
  induction col with
  | nil => intro repl; rfl
  | cons x xs ih =>
    intro repl
    unfold fillZeros
    by_cases hx : x = 0
    · rw [if_pos hx]
      cases repl with
      | nil => simp [ih]
      | cons r rs => simp [ih]
    · rw [if_neg hx]
      simp [ih]

lemma fillZeros_getD_nonzero : ∀ (col repl : List Nat) (j : Nat),
    col.getD j 0 ≠ 0 → (fillZeros col repl).getD j 0 = col.getD j 0 := by
  intro col
  induction col with
  | nil => intro repl j h; exact absurd rfl h
  | cons x xs ih =>
    intro repl j h
    unfold fillZeros
    by_cases hx : x = 0
    · rw [if_pos hx]
      cases j with
      | zero => rw [show (x :: xs).getD 0 0 = x from rfl] at h; exact absurd hx h
      | succ m =>
        rw [show (x :: xs).getD (m + 1) 0 = xs.getD m 0 from rfl] at h ⊢
        cases repl with
        | nil => simpa using ih [] m h
        | cons r rs => simpa using ih rs m h
    · rw [if_neg hx]
      cases j with
      | zero => rfl
      | succ m =>
        rw [show (x :: xs).getD (m + 1) 0 = xs.getD m 0 from rfl] at h ⊢
        simpa using ih repl m h

lemma fillZeros_perm : ∀ (col repl : List Nat), col.count 0 = repl.length →
    (fillZeros col repl).Perm (repl ++ col.filter (fun x => decide (x ≠ 0))) := by
  intro col
  induction col with
  | nil =>
    intro repl hcount
    have hrepl : repl = [] := List.length_eq_zero.mp (by simpa using hcount.symm)
    subst hrepl
    simp [fillZeros]
  | cons x xs ih =>
    intro repl hcount
    unfold fillZeros
    by_cases hx : x = 0
    · rw [if_pos hx]
      subst hx
      rw [List.count_cons_self] at hcount
      cases repl with
      | nil => simp at hcount
      | cons r rs =>
        have hrs : xs.count 0 = rs.length := by
          rw [List.length_cons] at hcount
          omega
        have hperm := ih rs hrs
        have hfil : List.filter (fun y => decide (y ≠ 0)) (0 :: xs) =
            List.filter (fun y => decide (y ≠ 0)) xs :=
          List.filter_cons_of_neg (by decide)
        rw [hfil]
        exact List.Perm.cons r hperm
    · rw [if_neg hx]
      have hcount2 : xs.count 0 = repl.length := by
        rw [List.count_cons_of_ne (fun h => hx h.symm)] at hcount
        exact hcount
      have hperm := ih repl hcount2
      have hfil : List.filter (fun y => decide (y ≠ 0)) (x :: xs) =
          x :: List.filter (fun y => decide (y ≠ 0)) xs :=
        List.filter_cons_of_pos (by simpa using hx)
      rw [hfil]
      exact (List.Perm.cons x hperm).trans List.perm_middle.symm

lemma nodup_bounded_length_le (m : List Nat) (n : Nat) (hnd : m.Nodup)
    (hb : ∀ i ∈ m, i < n) : m.length ≤ n := by
  have h1 : m.toFinset.card = m.length := List.toFinset_card_of_nodup hnd
  have h2 : m.toFinset ⊆ Finset.range n := by
    intro x hx
    exact Finset.mem_range.mpr (hb x (List.mem_toFinset.mp hx))
  have h3 := Finset.card_le_card h2
  rw [h1, Finset.card_range] at h3
  exact h3

lemma private_col_spec (n : Nat) (m w repl : List Nat)
    (hnd : m.Nodup) (hbound : ∀ i ∈ m, i < n) (hw : w.length = m.length)
    (hwnz : ∀ v ∈ w, v ≠ 0) (hrepl : repl.length = n - m.length) :
    (writeAt (List.replicate n 0) m w).count 0 = n - m.length ∧
    (fillZeros (writeAt (List.replicate n 0) m w) repl).Perm (repl ++ w) ∧
    (fillZeros (writeAt (List.replicate n 0) m w) repl).length = n ∧
    (∀ k, k < m.length →
      (fillZeros (writeAt (List.replicate n 0) m w) repl).getD (m.getD k 0) 0 =
        w.getD k 0) := by
  have hlen_rep : ∀ i ∈ m, i < (List.replicate n 0).length := by
    intro i hi
    rw [List.length_replicate]
    exact hbound i hi
  have hzero_rep : ∀ i ∈ m, (List.replicate n 0).getD i 0 = 0 := by
    intro i hi
    have hin : i < n := hbound i hi
    rw [List.getD_eq_getElem?_getD,
      List.getElem?_eq_getElem (by simpa using hin)]
    simp
  have hperm0 := writeAt_perm m w (List.replicate n 0) hnd hw hlen_rep hzero_rep
  have hmn : m.length ≤ n := nodup_bounded_length_le m n hnd hbound
  have hcnt := hperm0.count_eq 0
  rw [List.count_append, List.count_append, List.count_replicate_self,
    List.count_replicate_self] at hcnt
  have hw0 : List.count 0 w = 0 := List.count_eq_zero.mpr (fun h => hwnz 0 h rfl)
  rw [hw0] at hcnt
  have hca_cnt : (writeAt (List.replicate n 0) m w).count 0 = n - m.length := by omega
  refine ⟨hca_cnt, ?_, ?_, ?_⟩
  · have hfil := fillZeros_perm (writeAt (List.replicate n 0) m w) repl
      (by rw [hca_cnt, hrepl])
    have hfilter_perm := hperm0.filter (fun x => decide (x ≠ 0))
    have hfw : List.filter (fun x => decide (x ≠ 0)) w = w :=
      List.filter_eq_self.mpr (fun a ha => by simpa using hwnz a ha)
    have hfrep1 : List.filter (fun x => decide (x ≠ 0)) (List.replicate m.length 0) = [] :=
      List.filter_replicate_of_neg (by decide)
    have hfrep2 : List.filter (fun x => decide (x ≠ 0)) (List.replicate n 0) = [] :=
      List.filter_replicate_of_neg (by decide)
    rw [List.filter_append, List.filter_append, hfrep1, hfrep2, hfw,
      List.append_nil, List.append_nil] at hfilter_perm
    exact hfil.trans (List.Perm.append_left repl hfilter_perm)
  · rw [fillZeros_length, writeAt_length, List.length_replicate]
  · intro k hk
    have hpos := writeAt_getD_mem m w (List.replicate n 0) k hnd hk hw hlen_rep
    have hwk_mem : w.getD k 0 ∈ w := by
      rw [List.getD_eq_getElem?_getD,
        List.getElem?_eq_getElem (show k < w.length by omega)]
      exact List.getElem_mem _
    have hwk_ne : w.getD k 0 ≠ 0 := hwnz _ hwk_mem
    rw [fillZeros_getD_nonzero _ repl _ (by rw [hpos]; exact hwk_ne), hpos]

lemma take_split (l : List Nat) (a b : Nat) :
    l.take (a + b) = l.take a ++ (l.drop a).take b := by
  induction a generalizing l with
  | zero => simp
  | succ c ih =>
    cases l with
    | nil => simp
    | cons x xs =>
      rw [show c + 1 + b = (c + b) + 1 from by omega]
      simp [List.take_succ_cons, List.drop_succ_cons, ih xs]

/-- C7: `add_private_index` fails whenever the match repeats an index on
either axis; otherwise, for every one-to-one match (with the agreed
`size_assumed ≥ max(|df1|, |df2|)`, a fresh column name, and the random
draw modelled as a permutation `pool` of `[size_assumed,
3*size_assumed)`), the union of the new private-index columns has
exactly `|df1| + |df2| − |match|` distinct values, every value lies in
`[size_assumed, 3*size_assumed)`, and matched rows share a value. -/
theorem add_private_index_spec (df1 df2 : DataFrame) (m1 m2 : List Nat)
    (size_assumed : Nat) (colname : String) (pool : List Nat)
    (hpool_nd : pool.Nodup) (hpool_len : pool.length = 2 * size_assumed)
    (hpool_mem : ∀ v ∈ pool, size_assumed ≤ v ∧ v < 3 * size_assumed)
    (hcol1 : df1.hasCol colname = false) (hcol2 : df2.hasCol colname = false)
    (hsa1 : df1.nrows ≤ size_assumed) (hsa2 : df2.nrows ≤ size_assumed) :
    ((¬ m1.Nodup ∨ ¬ m2.Nodup) →
      add_private_index df1 df2 m1 m2 size_assumed colname pool =
        .error .assertionError) ∧
    (m1.Nodup → m2.Nodup → m2.length = m1.length →
      (∀ i ∈ m1, i < df1.nrows) → (∀ j ∈ m2, j < df2.nrows) →
      ∃ c1 c2 : List Nat,
        add_private_index df1 df2 m1 m2 size_assumed colname pool =
          .ok (df1.setCol colname (c1.map Value.vnat),
            df2.setCol colname (c2.map Value.vnat)) ∧
        c1.length = df1.nrows ∧ c2.length = df2.nrows ∧
        (c1 ++ c2).toFinset.card = df1.nrows + df2.nrows - m1.length ∧
        (∀ v ∈ c1 ++ c2, size_assumed ≤ v ∧ v < 3 * size_assumed) ∧
        (∀ k, k < m1.length →
          c1.getD (m1.getD k 0) 0 = c2.getD (m2.getD k 0) 0)) := by
  constructor
  · intro hdup
    unfold add_private_index
    rw [if_neg (by simp [hcol1, hcol2])]
    rw [if_pos (fun hand => hdup.elim (fun h => h hand.1) (fun h => h hand.2))]
  · intro hnd1 hnd2 hlen21 hb1 hb2
    have hinner1 : m1.length ≤ df1.nrows := nodup_bounded_length_le m1 _ hnd1 hb1
    have hinner2 : m1.length ≤ df2.nrows := by
      rw [← hlen21]
      exact nodup_bounded_length_le m2 _ hnd2 hb2
    have houter_le : df1.nrows + df2.nrows - m1.length ≤ pool.length := by
      rw [hpool_len]
      omega
    have hpriv_len : (pool.take (df1.nrows + df2.nrows - m1.length)).length =
        df1.nrows + df2.nrows - m1.length := by
      rw [List.length_take]
      omega
    have hpriv_nd : (pool.take (df1.nrows + df2.nrows - m1.length)).Nodup :=
      List.Nodup.sublist (List.take_sublist _ _) hpool_nd
    have hpriv_sub : ∀ v ∈ pool.take (df1.nrows + df2.nrows - m1.length),
        size_assumed ≤ v ∧ v < 3 * size_assumed :=
      fun v hv => hpool_mem v (List.take_subset _ _ hv)
    have hpriv_nz : ∀ v ∈ pool.take (df1.nrows + df2.nrows - m1.length), v ≠ 0 := by
      intro v hv h0
      have hb := hpriv_sub v hv
      omega
    have hw_len : ((pool.take (df1.nrows + df2.nrows - m1.length)).take m1.length).length
        = m1.length := by
      rw [List.length_take, hpriv_len]
      omega
    have hw_sub : ∀ v ∈ (pool.take (df1.nrows + df2.nrows - m1.length)).take m1.length,
        v ∈ pool.take (df1.nrows + df2.nrows - m1.length) :=
      fun v hv => List.take_subset _ _ hv
    have hw_nz : ∀ v ∈ (pool.take (df1.nrows + df2.nrows - m1.length)).take m1.length,
        v ≠ 0 := fun v hv => hpriv_nz v (hw_sub v hv)
    have hrepl1_len :
        (((pool.take (df1.nrows + df2.nrows - m1.length)).drop m1.length).take
          (df1.nrows - m1.length)).length = df1.nrows - m1.length := by
      rw [List.length_take, List.length_drop, hpriv_len]
      omega
    have hrepl2_len :
        (((pool.take (df1.nrows + df2.nrows - m1.length)).drop df1.nrows).take
          (df1.nrows + df2.nrows - m1.length - df1.nrows)).length =
          df1.nrows + df2.nrows - m1.length - df1.nrows := by
      rw [List.length_take, List.length_drop, hpriv_len]
      omega
    obtain ⟨hcnt1, hperm1, hclen1, hpos1⟩ := private_col_spec df1.nrows m1
      ((pool.take (df1.nrows + df2.nrows - m1.length)).take m1.length)
      (((pool.take (df1.nrows + df2.nrows - m1.length)).drop m1.length).take
        (df1.nrows - m1.length)) hnd1 hb1 hw_len hw_nz hrepl1_len
    obtain ⟨hcnt2, hperm2, hclen2, hpos2⟩ := private_col_spec df2.nrows m2
      ((pool.take (df1.nrows + df2.nrows - m1.length)).take m1.length)
      (((pool.take (df1.nrows + df2.nrows - m1.length)).drop df1.nrows).take
        (df1.nrows + df2.nrows - m1.length - df1.nrows)) hnd2 hb2
      (by rw [hw_len, hlen21]) hw_nz (by rw [hrepl2_len, hlen21]; omega)
    refine ⟨_, _, ?_, hclen1, hclen2, ?_, ?_, ?_⟩
    · unfold add_private_index
      dsimp only
      rw [if_neg (by simp [hcol1, hcol2])]
      rw [if_neg (not_not_intro ⟨hnd1, hnd2⟩)]
      rw [if_neg (by
        simp only [Bool.or_eq_true, List.any_eq_true, decide_eq_true_eq, not_or]
        refine ⟨⟨⟨?_, ?_⟩, not_not_intro hlen21⟩, not_not_intro hpriv_len⟩
        · rintro ⟨i, hi, hni⟩
          exact absurd (hb1 i hi) (Nat.not_lt.mpr hni)
        · rintro ⟨j, hj, hnj⟩
          exact absurd (hb2 j hj) (Nat.not_lt.mpr hnj))]
      rw [if_neg (by
        push_neg
        constructor
        · rw [hcnt1, hrepl1_len]
        · rw [hcnt2, hrepl2_len, hlen21]
          omega)]
    · have hsplit1 : (pool.take (df1.nrows + df2.nrows - m1.length)).take m1.length ++
          ((pool.take (df1.nrows + df2.nrows - m1.length)).drop m1.length).take
            (df1.nrows - m1.length) =
          (pool.take (df1.nrows + df2.nrows - m1.length)).take df1.nrows := by
        rw [← take_split, Nat.add_sub_cancel' hinner1]
      have hsplit2 : (pool.take (df1.nrows + df2.nrows - m1.length)).take df1.nrows ++
          ((pool.take (df1.nrows + df2.nrows - m1.length)).drop df1.nrows).take
            (df1.nrows + df2.nrows - m1.length - df1.nrows) =
          pool.take (df1.nrows + df2.nrows - m1.length) := by
        rw [← take_split, Nat.add_sub_cancel' (by omega),
          List.take_of_length_le (le_of_eq hpriv_len)]
      have htf : ((fillZeros (writeAt (List.replicate df1.nrows 0) m1
            ((pool.take (df1.nrows + df2.nrows - m1.length)).take m1.length))
            (((pool.take (df1.nrows + df2.nrows - m1.length)).drop m1.length).take
              (df1.nrows - m1.length)) ++
          fillZeros (writeAt (List.replicate df2.nrows 0) m2
            ((pool.take (df1.nrows + df2.nrows - m1.length)).take m1.length))
            (((pool.take (df1.nrows + df2.nrows - m1.length)).drop df1.nrows).take
              (df1.nrows + df2.nrows - m1.length - df1.nrows))).toFinset) =
          (pool.take (df1.nrows + df2.nrows - m1.length)).toFinset := by
        apply Finset.Subset.antisymm
        · intro x hx
          rw [List.mem_toFinset] at hx ⊢
          rcases List.mem_append.mp hx with hx | hx
          · rcases List.mem_append.mp (hperm1.mem_iff.mp hx) with h | h
            · exact List.drop_subset _ _ (List.take_subset _ _ h)
            · exact List.take_subset _ _ h
          · rcases List.mem_append.mp (hperm2.mem_iff.mp hx) with h | h
            · exact List.drop_subset _ _ (List.take_subset _ _ h)
            · exact List.take_subset _ _ h
        · intro x hx
          rw [List.mem_toFinset] at hx ⊢
          rw [← hsplit2] at hx
          rcases List.mem_append.mp hx with hx | hx
          · rw [← hsplit1] at hx
            rcases List.mem_append.mp hx with hx | hx
            · exact List.mem_append.mpr (Or.inl (hperm1.symm.mem_iff.mp
                (List.mem_append.mpr (Or.inr hx))))
            · exact List.mem_append.mpr (Or.inl (hperm1.symm.mem_iff.mp
                (List.mem_append.mpr (Or.inl hx))))
          · exact List.mem_append.mpr (Or.inr (hperm2.symm.mem_iff.mp
              (List.mem_append.mpr (Or.inl hx))))
      rw [htf, List.toFinset_card_of_nodup hpriv_nd, hpriv_len]
    · intro v hv
      rcases List.mem_append.mp hv with hx | hx
      · rcases List.mem_append.mp (hperm1.mem_iff.mp hx) with h | h
        · exact hpriv_sub v (List.drop_subset _ _ (List.take_subset _ _ h))
        · exact hpriv_sub v (List.take_subset _ _ h)
      · rcases List.mem_append.mp (hperm2.mem_iff.mp hx) with h | h
        · exact hpriv_sub v (List.drop_subset _ _ (List.take_subset _ _ h))
        · exact hpriv_sub v (List.take_subset _ _ h)
    · intro k hk
      rw [hpos1 k hk, hpos2 k (by rw [hlen21]; exact hk)]

/-- C7 witness: the theorem applied at one-row frames, match `([0], [0])`,
`size_assumed = 1`, and the pool `[1, 2]` (a permutation of `range(1, 3)`). -/
theorem add_private_index_spec_witness :
    ((¬ ([0] : List Nat).Nodup ∨ ¬ ([0] : List Nat).Nodup) →
      add_private_index df0 df0 [0] [0] 1 "private_index" [1, 2] =
        .error .assertionError) ∧
    (([0] : List Nat).Nodup → ([0] : List Nat).Nodup →
      ([0] : List Nat).length = ([0] : List Nat).length →
      (∀ i ∈ ([0] : List Nat), i < df0.nrows) →
      (∀ j ∈ ([0] : List Nat), j < df0.nrows) →
      ∃ c1 c2 : List Nat,
        add_private_index df0 df0 [0] [0] 1 "private_index" [1, 2] =
          .ok (df0.setCol "private_index" (c1.map Value.vnat),
            df0.setCol "private_index" (c2.map Value.vnat)) ∧
        c1.length = df0.nrows ∧ c2.length = df0.nrows ∧
        (c1 ++ c2).toFinset.card = df0.nrows + df0.nrows - ([0] : List Nat).length ∧
        (∀ v ∈ c1 ++ c2, 1 ≤ v ∧ v < 3 * 1) ∧
        (∀ k, k < ([0] : List Nat).length →
          c1.getD (([0] : List Nat).getD k 0) 0 = c2.getD (([0] : List Nat).getD k 0) 0)) :=
  add_private_index_spec df0 df0 [0] [0] 1 "private_index" [1, 2]
    (by decide) (by decide) (by decide) (by decide) (by decide) (by decide) (by decide)

/-! ## C8: sparse norm equals the dense quadratic form -/

lemma sumPairs_eq_quadFormDense (A : Mat) (I : List Nat) (D : Nat)
    (hnd : I.Nodup) (hb : ∀ i ∈ I, i < D) :
    sumPairs A I = quadFormDense A (indicatorVec I) D := by
  have hsub : I.toFinset ⊆ Finset.range D := by
    intro x hx
    exact Finset.mem_range.mpr (hb x (List.mem_toFinset.mp hx))
  unfold sumPairs quadFormDense
  calc (I.map (fun i => (I.map (fun j => matGet A i j)).sum)).sum
      = ∑ i in I.toFinset, (I.map (fun j => matGet A i j)).sum :=
        (List.sum_toFinset _ hnd).symm
    _ = ∑ i in I.toFinset, ∑ j in I.toFinset, matGet A i j :=
        Finset.sum_congr rfl (fun i _ => (List.sum_toFinset _ hnd).symm)
    _ = ∑ i in Finset.range D ∩ I.toFinset, ∑ j in I.toFinset, matGet A i j := by
        rw [Finset.inter_eq_right.mpr hsub]
    _ = ∑ i in Finset.range D,
          if i ∈ I.toFinset then ∑ j in I.toFinset, matGet A i j else 0 :=
        (Finset.sum_ite_mem _ _ _).symm
    _ = ∑ i in Finset.range D, ∑ j in Finset.range D,
          indicatorVec I i * matGet A i j * indicatorVec I j := by
        apply Finset.sum_congr rfl
        intro i _
        by_cases hi : i ∈ I.toFinset
        · rw [if_pos hi]
          have hind : indicatorVec I i = 1 := by
            unfold indicatorVec
            rw [if_pos (List.mem_toFinset.mp hi)]
          calc (∑ j in I.toFinset, matGet A i j)
              = ∑ j in Finset.range D ∩ I.toFinset, matGet A i j := by
                rw [Finset.inter_eq_right.mpr hsub]
            _ = ∑ j in Finset.range D,
                  if j ∈ I.toFinset then matGet A i j else 0 :=
                (Finset.sum_ite_mem _ _ _).symm
            _ = ∑ j in Finset.range D,
                  indicatorVec I i * matGet A i j * indicatorVec I j := by
                apply Finset.sum_congr rfl
                intro j _
                rw [hind, one_mul]
                unfold indicatorVec
                by_cases hj : j ∈ I.toFinset
                · rw [if_pos hj, if_pos (List.mem_toFinset.mp hj), mul_one]
                · rw [if_neg hj, if_neg (fun hm => hj (List.mem_toFinset.mpr hm)), mul_zero]
        · rw [if_neg hi]
          symm
          apply Finset.sum_eq_zero
          intro j _
          have hind : indicatorVec I i = 0 := by
            unfold indicatorVec
            rw [if_neg (fun hm => hi (List.mem_toFinset.mpr hm))]
          rw [hind, zero_mul, zero_mul]

/-- C8: for every list of distinct Bloom indices within
`[0, bf_size + offset)` and the embedder's (symmetric) affinity matrix,
the implementation's sparse norm `EmbeddedDataFrame._calculate_norm`
(square root of the sum of `A[i, j]` over `I × I`) equals the square
root of the dense quadratic form `x' A x`, where `x` is the
{0,1}-indicator vector of `I` in dimension `bf_size + offset`; stated
through the abstract library square root `sqrtQ` and through
`Real.sqrt`. -/
theorem calculate_norm_eq_quadform (sqrtQ : ℚ → ℚ) (E : Embedder) (I : List Nat)
    (hnd : I.Nodup) (hb : ∀ i ∈ I, i < E.bf_size + E.offset) :
    EmbeddedDataFrame._calculate_norm sqrtQ E I =
      sqrtQ (quadFormDense E.scm_matrix (indicatorVec I) (E.bf_size + E.offset)) ∧
    Real.sqrt ((sumPairs E.scm_matrix I : ℚ) : ℝ) =
      Real.sqrt ((quadFormDense E.scm_matrix (indicatorVec I)
        (E.bf_size + E.offset) : ℚ) : ℝ) := by
  have key := sumPairs_eq_quadFormDense E.scm_matrix I (E.bf_size + E.offset) hnd hb
  constructor
  · unfold EmbeddedDataFrame._calculate_norm
    rw [key]
  · rw [key]

/-- C8 witness: the norm-equivalence theorem at a concrete embedder and
index list. -/
theorem calculate_norm_eq_quadform_witness :
    EmbeddedDataFrame._calculate_norm id E0 [0, 1] =
      id (quadFormDense E0.scm_matrix (indicatorVec [0, 1]) (E0.bf_size + E0.offset)) ∧
    Real.sqrt ((sumPairs E0.scm_matrix [0, 1] : ℚ) : ℝ) =
      Real.sqrt ((quadFormDense E0.scm_matrix (indicatorVec [0, 1])
        (E0.bf_size + E0.offset) : ℚ) : ℝ) :=
  calculate_norm_eq_quadform id E0 [0, 1] (by decide) (by decide)
